import Mathlib

/-!
Shallow embedding of the durable chat room actor (`src/shared.ts`):
message validation, per-connection fixed-window rate limiting, the bounded
in-memory message log with upsert/delete/prune semantics, the durable-store
operation trace emitted by each mutation, and the `onMessage` dispatch of the
room actor, together with theorems settling the specification claims.

Machine integers of the source (JS numbers used as millisecond timestamps and
counters) are modelled as `Int` / `Nat`; strings as Lean `String`; the
`Map`-typed fields of the actor as functions `String → Option _`; the durable
SQL store as a function from message id to row; a raised JS exception as the
`Except.error` carrying the error's message.  The durable SQL layer itself is
external to the repository, so each `ctx.storage.sql.exec` call is modelled as
an emitted `SqlOp` together with an oracle `SqlOp → Option String` saying
whether that call raises (`some errorMessage`) or succeeds (`none`).
-/

/-- `ChatMessage` from `src/shared.ts`.  The `role` field is a string in the
wire format (the union type `"user" | "assistant"` is enforced only by
`validateMessage`), so it is embedded as `String`. -/
structure ChatMessage where
  id : String
  content : String
  user : String
  role : String
  timestamp : Int
deriving DecidableEq, Repr

/-- Configuration constant `MAX_MESSAGES` (line 90). -/
def MAX_MESSAGES : Nat := 1000

/-- Configuration constant `MAX_MESSAGE_LENGTH` (line 91). -/
def MAX_MESSAGE_LENGTH : Nat := 5000

/-- Configuration constant `MAX_USERNAME_LENGTH` (line 92). -/
def MAX_USERNAME_LENGTH : Nat := 50

/-- Configuration constant `RATE_LIMIT_MESSAGES` (line 93). -/
def RATE_LIMIT_MESSAGES : Nat := 10

/-- Configuration constant `RATE_LIMIT_WINDOW_MS` (line 94). -/
def RATE_LIMIT_WINDOW_MS : Int := 10000

/-- `RateLimitTracker` (lines 97-100). -/
structure RateLimitTracker where
  count : Nat
  windowStart : Int
deriving DecidableEq, Repr

/-- The `rateLimitMap : Map<string, RateLimitTracker>` field, embedded as a
function from connection id to optional tracker. -/
def RateLimitMap : Type := String → Option RateLimitTracker

/-- `Map.set` on the rate-limit map. -/
def rlSet (m : RateLimitMap) (c : String) (t : RateLimitTracker) : RateLimitMap :=
  fun x => if x = c then some t else m x

/-- JS `String.prototype.trim`: drop whitespace from both ends, embedded as
structural recursion over the character list so that it evaluates. -/
def jsTrim (s : String) : String :=
  ⟨((s.data.dropWhile Char.isWhitespace).reverse.dropWhile
      Char.isWhitespace).reverse⟩

/-- `Chat.validateMessage` (lines 114-150), returning `none` for
`{valid: true}` and `some e` for `{valid: false, error: e}`.  The `typeof`
checks of the source are discharged by the typed embedding; the JS falsiness
checks `!message.id` etc. on strings are emptiness checks. -/
def validateMessage (m : ChatMessage) : Option String :=
  if m.id = "" then some "Invalid message ID"
  else if m.user = "" then some "Invalid user name"
  else if m.user.length > MAX_USERNAME_LENGTH then
    some "Username too long (max 50 characters)"
  else if m.content = "" then some "Invalid message content"
  else if (jsTrim m.content).length = 0 then some "Message content cannot be empty"
  else if m.content.length > MAX_MESSAGE_LENGTH then
    some "Message too long (max 5000 characters)"
  else if m.role ≠ "user" ∧ m.role ≠ "assistant" then some "Invalid message role"
  else none

/-- `Chat.checkRateLimit` (lines 153-169).  The source mutates
`this.rateLimitMap`; the embedding passes the map explicitly and returns the
boolean result together with the updated map. -/
def checkRateLimit (m : RateLimitMap) (connectionId : String) (now : Int) :
    Bool × RateLimitMap :=
  match m connectionId with
  | none => (true, rlSet m connectionId ⟨1, now⟩)
  | some tracker =>
    if now - tracker.windowStart > RATE_LIMIT_WINDOW_MS then
      (true, rlSet m connectionId ⟨1, now⟩)
    else if tracker.count ≥ RATE_LIMIT_MESSAGES then
      (false, m)
    else
      (true, rlSet m connectionId ⟨tracker.count + 1, tracker.windowStart⟩)

/-- One durable-store statement issued through `ctx.storage.sql.exec` by the
message mutation paths: the parameterized upsert of lines 275-284 and the
parameterized delete of lines 238 and 266-269. -/
inductive SqlOp where
  | insertMsg (m : ChatMessage)
  | deleteMsg (id : String)
deriving DecidableEq, Repr

/-- A durable row of the `messages` table (columns besides the key `id`). -/
structure Row where
  user : String
  role : String
  content : String
  timestamp : Int
deriving DecidableEq, Repr

/-- The durable `messages` table, keyed by `id`. -/
def Db : Type := String → Option Row

/-- Semantics of one executed statement against the durable table.  The
upsert of lines 275-284 is
`INSERT ... ON CONFLICT (id) DO UPDATE SET content = ?, timestamp = ?`:
on conflict only the `content` and `timestamp` columns are overwritten. -/
def applySqlOp (db : Db) : SqlOp → Db
  | .insertMsg m => fun k =>
      if k = m.id then
        match db m.id with
        | some r => some ⟨r.user, r.role, m.content, m.timestamp⟩
        | none => some ⟨m.user, m.role, m.content, m.timestamp⟩
      else db k
  | .deleteMsg i => fun k => if k = i then none else db k

/-- Executing a trace of statements left to right. -/
def applyOps (db : Db) (ops : List SqlOp) : Db :=
  ops.foldl applySqlOp db

/-- Oracle describing the durable layer: `none` means the statement executes
successfully, `some e` means the `exec` call raises an error with message
`e`. -/
def ExecOracle : Type := SqlOp → Option String

/-- The durable layer that never fails. -/
def noFail : ExecOracle := fun _ => none

/-- JS `Array.prototype.findIndex`, with `none` for the source's `-1`. -/
def findIndex (p : ChatMessage → Bool) : List ChatMessage → Option Nat
  | [] => none
  | x :: xs => if p x then some 0 else (findIndex p xs).map (· + 1)

/-- Result of one mutation method (`saveMessage` / `deleteMessage`):
`result` is `.error e` when the method raised an error with message `e`
(in-memory mutations performed before the raise persist in `messages`, since
the source mutates `this.messages` in place); `ops` is the ordered list of
durable statements issued. -/
structure SaveOutcome where
  result : Except String Unit
  messages : List ChatMessage
  ops : List SqlOp

/-- `Chat.saveMessage` (lines 245-289).  Validation failure throws
`new Error(validation.error)`.  On append past `MAX_MESSAGES`, the source
shifts the in-memory array and issues the durable `DELETE` of the evicted id
(lines 262-271) and only afterwards issues the durable upsert (lines
275-284). -/
def saveMessage (exec : ExecOracle) (msgs : List ChatMessage) (m : ChatMessage) :
    SaveOutcome :=
  match validateMessage m with
  | some err => ⟨.error err, msgs, []⟩
  | none =>
    match findIndex (fun x => x.id == m.id) msgs with
    | some i =>
        let msgs1 := msgs.set i m
        match exec (.insertMsg m) with
        | some e => ⟨.error e, msgs1, [.insertMsg m]⟩
        | none => ⟨.ok (), msgs1, [.insertMsg m]⟩
    | none =>
        let pushed := msgs ++ [m]
        if pushed.length > MAX_MESSAGES then
          match pushed.head? with
          | some old =>
            let msgs1 := pushed.drop 1
            match exec (.deleteMsg old.id) with
            | some e => ⟨.error e, msgs1, [.deleteMsg old.id]⟩
            | none =>
              match exec (.insertMsg m) with
              | some e => ⟨.error e, msgs1, [.deleteMsg old.id, .insertMsg m]⟩
              | none => ⟨.ok (), msgs1, [.deleteMsg old.id, .insertMsg m]⟩
          | none =>
            match exec (.insertMsg m) with
            | some e => ⟨.error e, pushed, [.insertMsg m]⟩
            | none => ⟨.ok (), pushed, [.insertMsg m]⟩
        else
          match exec (.insertMsg m) with
          | some e => ⟨.error e, pushed, [.insertMsg m]⟩
          | none => ⟨.ok (), pushed, [.insertMsg m]⟩

/-- `Chat.deleteMessage` (lines 232-243): filter the in-memory array, then
issue the durable delete; a raised durable error is rethrown after the
in-memory filter has already happened. -/
def deleteMessage (exec : ExecOracle) (msgs : List ChatMessage) (mid : String) :
    SaveOutcome :=
  let msgs1 := msgs.filter (fun x => x.id ≠ mid)
  match exec (.deleteMsg mid) with
  | some e => ⟨.error e, msgs1, [.deleteMsg mid]⟩
  | none => ⟨.ok (), msgs1, [.deleteMsg mid]⟩

/-- The mutable per-room state of the `Chat` actor: `messages`,
`rateLimitMap` and `connectedUsers` (lines 105-107). -/
structure ActorState where
  messages : List ChatMessage
  rateLimitMap : RateLimitMap
  connectedUsers : String → Option String

/-- An inbound frame after `JSON.parse`, restricted to the tags `onMessage`
dispatches on; every other successfully parsed frame falls into `other`
(silently ignored by the source). -/
inductive ClientMsg where
  | add (m : ChatMessage)
  | update (m : ChatMessage)
  | delete (id : String)
  | typing (user : String) (isTyping : Bool)
  | userJoined (user : String)
  | other
deriving DecidableEq, Repr

/-- Bytes placed on the wire by the actor: either the original raw inbound
frame echoed back (`this.broadcast(message)`), or a freshly stringified
`{type: "error", error: e}` object. -/
inductive Payload where
  | raw
  | errorMsg (e : String)
deriving DecidableEq, Repr

/-- One outbound transport effect: `connection.send` to one connection, or
`this.broadcast` with an exclusion list. -/
inductive OutEvent where
  | sendTo (conn : String) (payload : Payload)
  | broadcastExcept (exclude : List String) (payload : Payload)
deriving DecidableEq, Repr

/-- Result of one `onMessage` invocation: the successor actor state, the
outbound transport effects in order, and the durable statements issued. -/
structure StepResult where
  state : ActorState
  events : List OutEvent
  ops : List SqlOp

/-- `Chat.onMessage` (lines 291-363).  `parsed` is the result of
`JSON.parse` on the raw frame: `none` when parsing throws.  The source calls
`checkRateLimit` first, before parsing and before dispatching on the tag;
inner try/catch blocks turn mutation errors into `error` replies to the
sender, and the outer try/catch means the handler never propagates an
exception, which the embedding reflects by being a total function. -/
def onMessage (exec : ExecOracle) (st : ActorState) (connId : String)
    (now : Int) (parsed : Option ClientMsg) : StepResult :=
  let r := checkRateLimit st.rateLimitMap connId now
  let st1 : ActorState := ⟨st.messages, r.2, st.connectedUsers⟩
  if r.1 then
    match parsed with
    | none => ⟨st1, [.sendTo connId (.errorMsg "Invalid message format")], []⟩
    | some (.add m) | some (.update m) =>
        let out := saveMessage exec st1.messages m
        match out.result with
        | .ok _ =>
            ⟨⟨out.messages, st1.rateLimitMap, st1.connectedUsers⟩,
              [.broadcastExcept [] .raw], out.ops⟩
        | .error e =>
            ⟨⟨out.messages, st1.rateLimitMap, st1.connectedUsers⟩,
              [.sendTo connId (.errorMsg e)], out.ops⟩
    | some (.delete mid) =>
        let out := deleteMessage exec st1.messages mid
        match out.result with
        | .ok _ =>
            ⟨⟨out.messages, st1.rateLimitMap, st1.connectedUsers⟩,
              [.broadcastExcept [] .raw], out.ops⟩
        | .error _ =>
            ⟨⟨out.messages, st1.rateLimitMap, st1.connectedUsers⟩,
              [.sendTo connId (.errorMsg "Failed to delete message")], out.ops⟩
    | some (.typing _ _) => ⟨st1, [.broadcastExcept [connId] .raw], []⟩
    | some (.userJoined u) =>
        ⟨⟨st1.messages, st1.rateLimitMap,
            fun c => if c = connId then some u else st1.connectedUsers c⟩,
          [.broadcastExcept [connId] .raw], []⟩
    | some .other => ⟨st1, [], []⟩
  else
    ⟨st1, [.sendTo connId (.errorMsg "Rate limit exceeded. Please slow down.")], []⟩

/-! ## Helper lemmas -/

lemma string_length_eq_zero {s : String} : s.length = 0 ↔ s = "" := by
  cases s with
  | mk data =>
    simp [String.length, String.ext_iff, List.length_eq_zero]

lemma findIndex_eq_none {p : ChatMessage → Bool} {l : List ChatMessage}
    (h : ∀ x ∈ l, p x = false) : findIndex p l = none := by
  induction l with
  | nil => rfl
  | cons a l ih =>
    simp only [findIndex, h a (List.mem_cons_self a l), Bool.false_eq_true,
      if_false]
    rw [ih fun x hx => h x (List.mem_cons_of_mem a hx)]
    rfl


lemma findIndex_lt_length {p : ChatMessage → Bool} {l : List ChatMessage}
    {i : Nat} (h : findIndex p l = some i) : i < l.length := by
  induction l generalizing i with
  | nil => simp [findIndex] at h
  | cons a l ih =>
    by_cases hp : p a
    · simp [findIndex, hp] at h
      simp [List.length_cons]
      omega
    · simp [findIndex, hp] at h
      obtain ⟨j, hj, rfl⟩ := h
      have := ih hj
      simp [List.length_cons]
      omega

lemma mem_set_self {α : Type} : ∀ (l : List α) (i : Nat) (a : α),
    i < l.length → a ∈ l.set i a := by
  intro l
  induction l with
  | nil => intro i a h; simp at h
  | cons x xs ih =>
    intro i a h
    cases i with
    | zero => simp
    | succ j =>
      simp only [List.set_cons_succ, List.mem_cons]
      exact Or.inr (ih j a (by simpa using h))

lemma nodup_getElem?_inj {α : Type} {l : List α} {i j : Nat} {a : α}
    (hn : l.Nodup) (hi : l[i]? = some a) (hj : l[j]? = some a) : i = j := by
  induction l generalizing i j with
  | nil => simp at hi
  | cons x xs ih =>
    rcases List.nodup_cons.mp hn with ⟨hx, hxs⟩
    cases i with
    | zero =>
      cases j with
      | zero => rfl
      | succ j' =>
        simp at hi hj
        exact absurd (List.getElem?_mem hj) (hi ▸ hx)
    | succ i' =>
      cases j with
      | zero =>
        simp at hi hj
        exact absurd (List.getElem?_mem hi) (hj ▸ hx)
      | succ j' =>
        simp only [List.getElem?_cons_succ] at hi hj
        exact congrArg Nat.succ (ih hxs hi hj)

lemma save_replace_eq {msgs : List ChatMessage} {m : ChatMessage} {i : Nat}
    (hv : validateMessage m = none)
    (hf : findIndex (fun x => x.id == m.id) msgs = some i) :
    saveMessage noFail msgs m = ⟨.ok (), msgs.set i m, [.insertMsg m]⟩ := by
  simp [saveMessage, hv, hf, noFail]

lemma save_append_eq {msgs : List ChatMessage} {m : ChatMessage}
    (hv : validateMessage m = none)
    (hf : findIndex (fun x => x.id == m.id) msgs = none)
    (hlen : msgs.length < MAX_MESSAGES) :
    saveMessage noFail msgs m = ⟨.ok (), msgs ++ [m], [.insertMsg m]⟩ := by
  have h1 : ¬ (MAX_MESSAGES < msgs.length + 1) := by
    simp only [MAX_MESSAGES] at hlen ⊢
    omega
  simp [saveMessage, hv, hf, noFail, h1]

lemma save_evict_eq {a : ChatMessage} {l : List ChatMessage} {m : ChatMessage}
    (hv : validateMessage m = none)
    (hf : findIndex (fun x => x.id == m.id) (a :: l) = none)
    (hlen : (a :: l).length ≥ MAX_MESSAGES) :
    saveMessage noFail (a :: l) m =
      ⟨.ok (), l ++ [m], [.deleteMsg a.id, .insertMsg m]⟩ := by
  have h1 : MAX_MESSAGES < l.length + 1 + 1 := by
    simp only [List.length_cons, MAX_MESSAGES, ge_iff_le] at hlen ⊢
    omega
  simp [saveMessage, hv, hf, noFail, h1]

lemma save_length_le {exec : ExecOracle} {msgs : List ChatMessage}
    {m : ChatMessage} (h : msgs.length ≤ MAX_MESSAGES) :
    (saveMessage exec msgs m).messages.length ≤ MAX_MESSAGES := by
  unfold saveMessage
  cases hv : validateMessage m with
  | some err => simpa using h
  | none =>
    cases hf : findIndex (fun x => x.id == m.id) msgs with
    | some i =>
      cases he : exec (.insertMsg m) <;> simpa [List.length_set] using h
    | none =>
      by_cases hl : (msgs ++ [m]).length > MAX_MESSAGES
      · rw [if_pos hl]
        cases msgs with
        | nil => simp [MAX_MESSAGES] at hl
        | cons a as =>
          simp only [List.cons_append, List.head?_cons]
          simp only [List.cons_append, List.length_cons] at h ⊢
          cases he : exec (.deleteMsg a.id) with
          | some e => simpa using h
          | none =>
            cases he2 : exec (.insertMsg m) <;> simpa using h
      · rw [if_neg hl]
        simp only [List.length_append, List.length_cons, List.length_nil] at hl
        cases he : exec (.insertMsg m) <;> simp <;> omega

lemma foldl_save_length_le (exec : ExecOracle) (ms : List ChatMessage) :
    ∀ start : List ChatMessage, start.length ≤ MAX_MESSAGES →
    (ms.foldl (fun acc x => (saveMessage exec acc x).messages) start).length ≤
      MAX_MESSAGES := by
  induction ms with
  | nil => intro start h; simpa using h
  | cons m ms ih =>
    intro start h
    exact ih _ (save_length_le h)

lemma onMessage_parse_fail {exec : ExecOracle} {st : ActorState}
    {connId : String} {now : Int}
    (hrl : (checkRateLimit st.rateLimitMap connId now).1 = true) :
    onMessage exec st connId now none =
      ⟨⟨st.messages, (checkRateLimit st.rateLimitMap connId now).2,
          st.connectedUsers⟩,
        [.sendTo connId (.errorMsg "Invalid message format")], []⟩ := by
  simp [onMessage, hrl]

lemma onMessage_add_error {exec : ExecOracle} {st : ActorState}
    {connId : String} {now : Int} {m : ChatMessage} {e : String}
    (hrl : (checkRateLimit st.rateLimitMap connId now).1 = true)
    (hres : (saveMessage exec st.messages m).result = .error e) :
    onMessage exec st connId now (some (.add m)) =
      ⟨⟨(saveMessage exec st.messages m).messages,
          (checkRateLimit st.rateLimitMap connId now).2, st.connectedUsers⟩,
        [.sendTo connId (.errorMsg e)],
        (saveMessage exec st.messages m).ops⟩ := by
  simp only [onMessage, hrl, if_true]
  rw [show (⟨st.messages, (checkRateLimit st.rateLimitMap connId now).2,
      st.connectedUsers⟩ : ActorState).messages = st.messages from rfl]
  rw [hres]

lemma onMessage_delete_noFail {st : ActorState} {connId mid : String}
    {now : Int}
    (hrl : (checkRateLimit st.rateLimitMap connId now).1 = true) :
    onMessage noFail st connId now (some (.delete mid)) =
      ⟨⟨st.messages.filter (fun x => x.id ≠ mid),
          (checkRateLimit st.rateLimitMap connId now).2, st.connectedUsers⟩,
        [.broadcastExcept [] .raw], [.deleteMsg mid]⟩ := by
  simp [onMessage, hrl, deleteMessage, noFail]

/-- The boolean results of a sequence of `checkRateLimit` calls for one
connection at the given times, each call updating the map as in the source. -/
def rlCalls (m : RateLimitMap) (c : String) : List Int → List Bool
  | [] => []
  | t :: ts =>
      (checkRateLimit m c t).1 :: rlCalls (checkRateLimit m c t).2 c ts

lemma rlSet_self {m : RateLimitMap} {c : String} {t : RateLimitTracker} :
    rlSet m c t c = some t := by
  simp [rlSet]

lemma rlCalls_steady (c : String) (now : Int) :
    ∀ (k : Nat) (m : RateLimitMap) (j : Nat), m c = some ⟨j, now⟩ → 1 ≤ j →
    rlCalls m c (List.replicate k now) =
      List.replicate (min k (10 - j)) true ++
        List.replicate (k - (10 - j)) false := by
  intro k
  induction k with
  | zero => intro m j hm hj; simp [rlCalls]
  | succ k ih =>
    intro m j hm hj
    by_cases hcount : j ≥ 10
    · have hstep : checkRateLimit m c now = (false, m) := by
        simp [checkRateLimit, hm, RATE_LIMIT_WINDOW_MS, RATE_LIMIT_MESSAGES,
          hcount]
      rw [List.replicate_succ]
      simp only [rlCalls, hstep]
      rw [ih m j hm hj]
      have h0 : 10 - j = 0 := by omega
      rw [h0]
      simp [List.replicate_succ]
    · have hstep : checkRateLimit m c now =
          (true, rlSet m c ⟨j + 1, now⟩) := by
        simp [checkRateLimit, hm, RATE_LIMIT_WINDOW_MS, RATE_LIMIT_MESSAGES,
          hcount]
      rw [List.replicate_succ]
      simp only [rlCalls, hstep]
      rw [ih (rlSet m c ⟨j + 1, now⟩) (j + 1) rlSet_self (by omega)]
      have ha : min (k + 1) (10 - j) = min k (10 - (j + 1)) + 1 := by omega
      have hb : (k + 1) - (10 - j) = k - (10 - (j + 1)) := by omega
      rw [ha, hb, List.replicate_succ, List.cons_append]

/-! ## Claim theorems -/

/-- C6: `checkRateLimit` resets the tracker to `count = 1, windowStart = now`
and allows when no tracker exists or `now - windowStart > 10000`; otherwise it
denies without modifying the map when `count ≥ 10`; otherwise it increments
`count` (keeping `windowStart`) and allows.  Consequently, starting with no
tracker, of 11 calls within one window exactly the first 10 return `true` and
the 11th returns `false`. -/
theorem rate_limiter_spec (m : RateLimitMap) (c : String) (now : Int) :
    (m c = none → checkRateLimit m c now = (true, rlSet m c ⟨1, now⟩)) ∧
    (∀ t : RateLimitTracker, m c = some t →
        now - t.windowStart > RATE_LIMIT_WINDOW_MS →
        checkRateLimit m c now = (true, rlSet m c ⟨1, now⟩)) ∧
    (∀ t : RateLimitTracker, m c = some t →
        now - t.windowStart ≤ RATE_LIMIT_WINDOW_MS →
        t.count ≥ RATE_LIMIT_MESSAGES →
        checkRateLimit m c now = (false, m)) ∧
    (∀ t : RateLimitTracker, m c = some t →
        now - t.windowStart ≤ RATE_LIMIT_WINDOW_MS →
        t.count < RATE_LIMIT_MESSAGES →
        checkRateLimit m c now =
          (true, rlSet m c ⟨t.count + 1, t.windowStart⟩)) ∧
    (m c = none → rlCalls m c (List.replicate 11 now) =
        List.replicate 10 true ++ [false]) := by
  refine ⟨?_, ?_, ?_, ?_, ?_⟩
  · intro hm
    simp [checkRateLimit, hm]
  · intro t hm hw
    simp [checkRateLimit, hm, hw]
  · intro t hm hw hc
    simp [checkRateLimit, hm, not_lt.mpr hw, hc]
  · intro t hm hw hc
    simp [checkRateLimit, hm, not_lt.mpr hw, not_le.mpr hc]
  · intro hm
    have h1 : checkRateLimit m c now = (true, rlSet m c ⟨1, now⟩) := by
      simp [checkRateLimit, hm]
    have hrep : List.replicate 11 now = now :: List.replicate 10 now := rfl
    rw [hrep]
    rw [show rlCalls m c (now :: List.replicate 10 now) =
        (checkRateLimit m c now).1 ::
          rlCalls (checkRateLimit m c now).2 c (List.replicate 10 now)
      from rfl]
    rw [h1]
    rw [rlCalls_steady c now 10 _ 1 rlSet_self (by omega)]
    rfl

/-- Witness for `rate_limiter_spec` at a concrete empty map. -/
theorem rate_limiter_spec_witness :
    checkRateLimit (fun _ => none) "c" 0 =
      (true, rlSet (fun _ => none) "c" ⟨1, 0⟩) ∧
    rlCalls (fun _ => none) "c" (List.replicate 11 0) =
      List.replicate 10 true ++ [false] :=
  ⟨(rate_limiter_spec (fun _ => none) "c" 0).1 rfl,
   (rate_limiter_spec (fun _ => none) "c" 0).2.2.2.2 rfl⟩

lemma jsTrim_empty : jsTrim "" = "" := rfl

/-- C7: `validateMessage` succeeds iff the id is non-empty, the user name is
non-empty of length at most 50, the content is non-empty after trimming and of
untrimmed length at most 5000, and the role is `"user"` or `"assistant"`; on
failure it returns the error of the first failing check in source order
(id, user, user-length, content, empty-content, content-length, role).  It is
a pure function, so it has no side effects. -/
theorem validate_spec (m : ChatMessage) :
    (validateMessage m = none ↔
      (m.id ≠ "" ∧ m.user ≠ "" ∧ m.user.length ≤ MAX_USERNAME_LENGTH ∧
        jsTrim m.content ≠ "" ∧ m.content.length ≤ MAX_MESSAGE_LENGTH ∧
        (m.role = "user" ∨ m.role = "assistant"))) ∧
    (validateMessage m = some "Invalid message ID" ↔ m.id = "") ∧
    (validateMessage m = some "Invalid user name" ↔
      (m.id ≠ "" ∧ m.user = "")) ∧
    (validateMessage m = some "Username too long (max 50 characters)" ↔
      (m.id ≠ "" ∧ m.user ≠ "" ∧ m.user.length > MAX_USERNAME_LENGTH)) ∧
    (validateMessage m = some "Invalid message content" ↔
      (m.id ≠ "" ∧ m.user ≠ "" ∧ m.user.length ≤ MAX_USERNAME_LENGTH ∧
        m.content = "")) ∧
    (validateMessage m = some "Message content cannot be empty" ↔
      (m.id ≠ "" ∧ m.user ≠ "" ∧ m.user.length ≤ MAX_USERNAME_LENGTH ∧
        m.content ≠ "" ∧ jsTrim m.content = "")) ∧
    (validateMessage m = some "Message too long (max 5000 characters)" ↔
      (m.id ≠ "" ∧ m.user ≠ "" ∧ m.user.length ≤ MAX_USERNAME_LENGTH ∧
        m.content ≠ "" ∧ jsTrim m.content ≠ "" ∧
        m.content.length > MAX_MESSAGE_LENGTH)) ∧
    (validateMessage m = some "Invalid message role" ↔
      (m.id ≠ "" ∧ m.user ≠ "" ∧ m.user.length ≤ MAX_USERNAME_LENGTH ∧
        m.content ≠ "" ∧ jsTrim m.content ≠ "" ∧
        m.content.length ≤ MAX_MESSAGE_LENGTH ∧
        m.role ≠ "user" ∧ m.role ≠ "assistant")) := by
  refine ⟨?_, ?_, ?_, ?_, ?_, ?_, ?_, ?_⟩ <;>
    (unfold validateMessage
     split_ifs with h1 h2 h3 h4 h5 h6 h7 <;>
       simp_all [string_length_eq_zero, jsTrim_empty] <;> tauto)

/-- A well-formed sample message with the given id. -/
def mkChat (i : String) : ChatMessage := ⟨i, "hi", "Alice", "user", 1⟩

/-- A concrete log of exactly `MAX_MESSAGES = 1000` messages. -/
def bigLog : List ChatMessage :=
  mkChat "hd" :: List.replicate 999 (mkChat "old")

lemma bigLog_length : bigLog.length = MAX_MESSAGES := by
  unfold bigLog
  simp only [List.length_cons, List.length_replicate]
  rfl

lemma bigLog_fresh_id : ∀ x ∈ bigLog, x.id ≠ "new" := by
  intro x hx
  rcases List.mem_cons.mp hx with h | h
  · rw [h]; decide
  · rw [(List.eq_of_mem_replicate h : x = mkChat "old")]; decide

/-- C5: starting from a log of length at most `MAX_MESSAGES = 1000`, any
sequence of `add`/`update` operations keeps the length at most 1000; an append
to a full log evicts exactly the entry at position 0 and issues a durable
delete for its id; a replace of an existing id never changes the length and
never issues a durable delete. -/
theorem log_capacity_invariant :
    (∀ (ms : List ChatMessage) (start : List ChatMessage),
        start.length ≤ MAX_MESSAGES →
        (ms.foldl (fun acc x => (saveMessage noFail acc x).messages)
            start).length ≤ MAX_MESSAGES) ∧
    (∀ (old : ChatMessage) (rest : List ChatMessage) (m : ChatMessage),
        (old :: rest).length = MAX_MESSAGES →
        validateMessage m = none →
        (∀ x ∈ old :: rest, x.id ≠ m.id) →
        (saveMessage noFail (old :: rest) m).messages = rest ++ [m] ∧
        SqlOp.deleteMsg old.id ∈ (saveMessage noFail (old :: rest) m).ops) ∧
    (∀ (msgs : List ChatMessage) (m : ChatMessage) (i : Nat),
        findIndex (fun x => x.id == m.id) msgs = some i →
        validateMessage m = none →
        (saveMessage noFail msgs m).messages.length = msgs.length ∧
        ∀ mid : String,
          SqlOp.deleteMsg mid ∉ (saveMessage noFail msgs m).ops) := by
  refine ⟨fun ms start h => foldl_save_length_le noFail ms start h, ?_, ?_⟩
  · intro old rest m hlen hv hfresh
    have hf : findIndex (fun x => x.id == m.id) (old :: rest) = none :=
      findIndex_eq_none fun x hx =>
        beq_eq_false_iff_ne.mpr (hfresh x hx)
    rw [save_evict_eq hv hf (le_of_eq hlen.symm)]
    exact ⟨rfl, by simp⟩
  · intro msgs m i hf hv
    rw [save_replace_eq hv hf]
    exact ⟨by simp, fun mid => by simp⟩

/-- Witness for `log_capacity_invariant` at concrete logs: one `add` starting
from the empty log, the eviction of `bigLog`'s head by a fresh 1001st id, and
an in-place replace in a singleton log. -/
theorem log_capacity_invariant_witness :
    (([mkChat "a"].foldl (fun acc x => (saveMessage noFail acc x).messages)
        []).length ≤ MAX_MESSAGES) ∧
    ((saveMessage noFail bigLog (mkChat "new")).messages =
        List.replicate 999 (mkChat "old") ++ [mkChat "new"] ∧
      SqlOp.deleteMsg (mkChat "hd").id ∈
        (saveMessage noFail bigLog (mkChat "new")).ops) ∧
    ((saveMessage noFail [mkChat "a"]
        ⟨"a", "upd", "Bob", "assistant", 2⟩).messages.length =
      [mkChat "a"].length ∧
      SqlOp.deleteMsg "a" ∉
        (saveMessage noFail [mkChat "a"]
          ⟨"a", "upd", "Bob", "assistant", 2⟩).ops) :=
  ⟨log_capacity_invariant.1 [mkChat "a"] [] (by decide),
   log_capacity_invariant.2.1 (mkChat "hd")
     (List.replicate 999 (mkChat "old")) (mkChat "new") bigLog_length
     (by decide) bigLog_fresh_id,
   ⟨(log_capacity_invariant.2.2 [mkChat "a"]
       ⟨"a", "upd", "Bob", "assistant", 2⟩ 0 (by decide) (by decide)).1,
     (log_capacity_invariant.2.2 [mkChat "a"]
       ⟨"a", "upd", "Bob", "assistant", 2⟩ 0 (by decide) (by decide)).2 "a"⟩⟩

lemma findIndex_of_nodup {msgs : List ChatMessage} {i : Nat}
    {old m : ChatMessage} (hn : (msgs.map ChatMessage.id).Nodup)
    (hi : msgs[i]? = some old) (hid : old.id = m.id) :
    findIndex (fun x => x.id == m.id) msgs = some i := by
  induction msgs generalizing i with
  | nil => simp at hi
  | cons y ys ih =>
    rw [List.map_cons] at hn
    rcases List.nodup_cons.mp hn with ⟨hy, hys⟩
    cases i with
    | zero =>
      simp only [List.getElem?_cons_zero, Option.some.injEq] at hi
      subst hi
      simp [findIndex, hid]
    | succ j =>
      simp only [List.getElem?_cons_succ] at hi
      have hold : old ∈ ys := List.getElem?_mem hi
      have hmem : old.id ∈ ys.map ChatMessage.id :=
        List.mem_map_of_mem ChatMessage.id hold
      have hne : (y.id == m.id) = false := by
        rw [beq_eq_false_iff_ne]
        intro hc
        apply hy
        rw [hc, ← hid]
        exact hmem
      simp only [findIndex, hne, Bool.false_eq_true, if_false]
      rw [ih hys hi]
      rfl

/-- C9: for a log whose ids are pairwise distinct, a valid message whose id
equals the id of the entry at position `i` replaces exactly that entry in
place: the result is `msgs.set i m`, position `i` now holds `m` with the
updated fields, every other position is unchanged, and after the replace
position `i` is the only position holding that id. -/
theorem upsert_replaces_in_place (msgs : List ChatMessage) (i : Nat)
    (old m : ChatMessage) (hn : (msgs.map ChatMessage.id).Nodup)
    (hi : msgs[i]? = some old) (hid : old.id = m.id)
    (hv : validateMessage m = none) :
    saveMessage noFail msgs m = ⟨.ok (), msgs.set i m, [.insertMsg m]⟩ ∧
    (msgs.set i m)[i]? = some m ∧
    (∀ j, j ≠ i → (msgs.set i m)[j]? = msgs[j]?) ∧
    (∀ j x, (msgs.set i m)[j]? = some x → x.id = m.id → j = i) := by
  have hf := findIndex_of_nodup hn hi hid
  have hlt : i < msgs.length := findIndex_lt_length hf
  refine ⟨save_replace_eq hv hf, ?_, ?_, ?_⟩
  · rw [List.getElem?_set_self hlt]
  · intro j hj
    exact List.getElem?_set_ne (Ne.symm hj)
  · intro j x hjx hxid
    by_cases hji : j = i
    · exact hji
    · exfalso
      rw [List.getElem?_set_ne (Ne.symm hji)] at hjx
      have h1 : (msgs.map ChatMessage.id)[j]? = some m.id := by
        rw [List.getElem?_map, hjx]
        simp [hxid]
      have h2 : (msgs.map ChatMessage.id)[i]? = some m.id := by
        rw [List.getElem?_map, hi]
        simp [hid]
      exact hji (nodup_getElem?_inj hn h1 h2)

/-- Witness for `upsert_replaces_in_place`: an `update` with id `"b"` in the
two-entry log `[a, b]` replaces position 1 in place. -/
theorem upsert_replaces_in_place_witness :
    saveMessage noFail [mkChat "a", mkChat "b"]
        ⟨"b", "upd", "Bob", "assistant", 5⟩ =
      ⟨.ok (), [mkChat "a", mkChat "b"].set 1 ⟨"b", "upd", "Bob", "assistant", 5⟩,
        [.insertMsg ⟨"b", "upd", "Bob", "assistant", 5⟩]⟩ ∧
    ([mkChat "a", mkChat "b"].set 1 ⟨"b", "upd", "Bob", "assistant", 5⟩)[1]? =
      some ⟨"b", "upd", "Bob", "assistant", 5⟩ :=
  ⟨(upsert_replaces_in_place [mkChat "a", mkChat "b"] 1 (mkChat "b")
      ⟨"b", "upd", "Bob", "assistant", 5⟩ (by decide) (by decide) rfl
      (by decide)).1,
   (upsert_replaces_in_place [mkChat "a", mkChat "b"] 1 (mkChat "b")
      ⟨"b", "upd", "Bob", "assistant", 5⟩ (by decide) (by decide) rfl
      (by decide)).2.1⟩

/-- C4 counterexample: saving a valid message whose id `"a"` already has a
durable row does run the durable upsert, but the `ON CONFLICT` clause only
overwrites `content` and `timestamp`: in the resulting row the `role` column
still holds the old value `"user"` and not the new message's `"assistant"`
(and `user` likewise stays `"Alice"`), refuting the claim that the upsert
overwrites the `role` column. -/
theorem upsert_conflict_keeps_role :
    applyOps
        (fun k => if k = "a" then some ⟨"Alice", "user", "old", 1⟩ else none)
        (saveMessage noFail [⟨"a", "old", "Alice", "user", 1⟩]
          ⟨"a", "new", "Bob", "assistant", 2⟩).ops "a" =
      some ⟨"Alice", "user", "new", 2⟩ ∧
    (⟨"Alice", "user", "new", 2⟩ : Row).role ≠
      (⟨"a", "new", "Bob", "assistant", 2⟩ : ChatMessage).role := by
  exact ⟨by decide, by decide⟩

/-- C4 amended: for every valid message, `saveMessage` succeeds and its last
durable statement is always the upsert of that message, whether the in-memory
operation was an insert or a replace; on conflict the upsert overwrites only
the existing row's `content` and `timestamp` columns (keeping `user` and
`role`), and with no existing row it inserts the full row. -/
theorem durable_upsert_always_runs (msgs : List ChatMessage) (m : ChatMessage)
    (hv : validateMessage m = none) :
    (saveMessage noFail msgs m).result = .ok () ∧
    (saveMessage noFail msgs m).ops.getLast? = some (.insertMsg m) ∧
    (∀ (db : Db) (r : Row), db m.id = some r →
        applySqlOp db (.insertMsg m) m.id =
          some ⟨r.user, r.role, m.content, m.timestamp⟩) ∧
    (∀ db : Db, db m.id = none →
        applySqlOp db (.insertMsg m) m.id =
          some ⟨m.user, m.role, m.content, m.timestamp⟩) := by
  have hcases : (saveMessage noFail msgs m).result = .ok () ∧
      (saveMessage noFail msgs m).ops.getLast? = some (.insertMsg m) := by
    cases hf : findIndex (fun x => x.id == m.id) msgs with
    | some i =>
      rw [save_replace_eq hv hf]
      exact ⟨rfl, rfl⟩
    | none =>
      cases msgs with
      | nil =>
        rw [save_append_eq hv hf (by decide)]
        exact ⟨rfl, rfl⟩
      | cons a as =>
        by_cases hl : (a :: as).length < MAX_MESSAGES
        · rw [save_append_eq hv hf hl]
          exact ⟨rfl, rfl⟩
        · rw [save_evict_eq hv hf (Nat.le_of_not_lt hl)]
          exact ⟨rfl, rfl⟩
  refine ⟨hcases.1, hcases.2, ?_, ?_⟩
  · intro db r hdb
    simp [applySqlOp, hdb]
  · intro db hdb
    simp [applySqlOp, hdb]

/-- Witness for `durable_upsert_always_runs`: replacing id `"a"` in a
singleton log, with the conflict row semantics evaluated at a concrete
table. -/
theorem durable_upsert_always_runs_witness :
    (saveMessage noFail [mkChat "a"]
        ⟨"a", "new", "Bob", "assistant", 2⟩).result = .ok () ∧
    (saveMessage noFail [mkChat "a"]
        ⟨"a", "new", "Bob", "assistant", 2⟩).ops.getLast? =
      some (.insertMsg ⟨"a", "new", "Bob", "assistant", 2⟩) ∧
    applySqlOp
        (fun k => if k = "a" then some ⟨"Alice", "user", "old", 1⟩ else none)
        (.insertMsg ⟨"a", "new", "Bob", "assistant", 2⟩)
        (⟨"a", "new", "Bob", "assistant", 2⟩ : ChatMessage).id =
      some ⟨"Alice", "user", "new", 2⟩ :=
  ⟨(durable_upsert_always_runs [mkChat "a"]
      ⟨"a", "new", "Bob", "assistant", 2⟩ (by decide)).1,
   (durable_upsert_always_runs [mkChat "a"]
      ⟨"a", "new", "Bob", "assistant", 2⟩ (by decide)).2.1,
   (durable_upsert_always_runs [mkChat "a"]
      ⟨"a", "new", "Bob", "assistant", 2⟩ (by decide)).2.2.1
     (fun k => if k = "a" then some ⟨"Alice", "user", "old", 1⟩ else none)
     ⟨"Alice", "user", "old", 1⟩ rfl⟩

/-- C3 counterexample: appending a fresh valid message to the full 1000-entry
log `bigLog` emits the durable trace
`[DELETE evicted-id, INSERT new-id]` — the delete of the evicted row is at
index 0 and the insert of the new row at index 1, so the delete *does* precede
the insert, refuting the claimed insert-before-prune sequencing. -/
theorem evict_delete_precedes_insert :
    (saveMessage noFail bigLog (mkChat "new")).ops =
      [.deleteMsg "hd", .insertMsg (mkChat "new")] ∧
    (saveMessage noFail bigLog (mkChat "new")).ops[0]? =
      some (.deleteMsg "hd") ∧
    (saveMessage noFail bigLog (mkChat "new")).ops[1]? =
      some (.insertMsg (mkChat "new")) := by
  have h := save_evict_eq
    (show validateMessage (mkChat "new") = none by decide)
    (findIndex_eq_none fun x hx =>
      beq_eq_false_iff_ne.mpr (bigLog_fresh_id x hx))
    (le_of_eq bigLog_length.symm)
  rw [show bigLog = mkChat "hd" :: List.replicate 999 (mkChat "old") from rfl]
  rw [h]
  exact ⟨rfl, rfl, rfl⟩

/-- C3 amended: whenever appending a valid fresh message makes the log exceed
`MAX_MESSAGES`, the durable delete of the evicted oldest entry is issued
*before* the durable insert of the new message (prune-before-insert): the
emitted trace is exactly `[DELETE old.id, INSERT m]`. -/
theorem evict_trace_prune_before_insert (old : ChatMessage)
    (rest : List ChatMessage) (m : ChatMessage)
    (hv : validateMessage m = none)
    (hfresh : ∀ x ∈ old :: rest, x.id ≠ m.id)
    (hlen : MAX_MESSAGES ≤ (old :: rest).length) :
    saveMessage noFail (old :: rest) m =
      ⟨.ok (), rest ++ [m], [.deleteMsg old.id, .insertMsg m]⟩ :=
  save_evict_eq hv
    (findIndex_eq_none fun x hx => beq_eq_false_iff_ne.mpr (hfresh x hx))
    hlen

/-- Witness for `evict_trace_prune_before_insert` at the concrete full log
`bigLog`. -/
theorem evict_trace_prune_before_insert_witness :
    saveMessage noFail (mkChat "hd" :: List.replicate 999 (mkChat "old"))
        (mkChat "new") =
      ⟨.ok (), List.replicate 999 (mkChat "old") ++ [mkChat "new"],
        [.deleteMsg (mkChat "hd").id, .insertMsg (mkChat "new")]⟩ :=
  evict_trace_prune_before_insert (mkChat "hd")
    (List.replicate 999 (mkChat "old")) (mkChat "new") (by decide)
    (fun x hx => bigLog_fresh_id x hx) (le_of_eq bigLog_length.symm)

/-- C1: the source calls `checkRateLimit` before parsing and before
dispatching on the tag, so a `typing` frame is *not* exempt from rate
limiting, contradicting the source's own comment
(`// Broadcast typing indicator to others (not rate limited)`): a sender whose
tracker is at the limit (`count = 10` inside the window) gets the rate-limit
error and nothing is broadcast, and even below the limit the typing frame
increments the sender's tracker (here from `count = 3` to `count = 4`). -/
theorem typing_frame_hits_rate_limiter :
    (onMessage noFail
        ⟨[], fun c => if c = "c1" then some ⟨10, 0⟩ else none, fun _ => none⟩
        "c1" 0 (some (.typing "Alice" true))).events =
      [.sendTo "c1" (.errorMsg "Rate limit exceeded. Please slow down.")] ∧
    (onMessage noFail
        ⟨[], fun c => if c = "c1" then some ⟨3, 0⟩ else none, fun _ => none⟩
        "c1" 0 (some (.typing "Alice" true))).events =
      [.broadcastExcept ["c1"] .raw] ∧
    (onMessage noFail
        ⟨[], fun c => if c = "c1" then some ⟨3, 0⟩ else none, fun _ => none⟩
        "c1" 0 (some (.typing "Alice" true))).state.rateLimitMap "c1" =
      some ⟨4, 0⟩ :=
  ⟨by decide, by decide, by decide⟩

/-- C2 counterexample: an unparsable frame from a sender with tracker
`count = 3` inside the window is answered with the `"Invalid message format"`
error only, but the sender's rate-limit tracker is *changed* (charged from
`count = 3` to `count = 4`), because `checkRateLimit` runs before parsing —
refuting the claim that an unparsable frame leaves the tracker unchanged. -/
theorem unparsable_frame_charges_tracker :
    (onMessage noFail
        ⟨[], fun c => if c = "c" then some ⟨3, 0⟩ else none, fun _ => none⟩
        "c" 0 none).events =
      [.sendTo "c" (.errorMsg "Invalid message format")] ∧
    (onMessage noFail
        ⟨[], fun c => if c = "c" then some ⟨3, 0⟩ else none, fun _ => none⟩
        "c" 0 none).state.rateLimitMap "c" = some ⟨4, 0⟩ ∧
    (onMessage noFail
        ⟨[], fun c => if c = "c" then some ⟨3, 0⟩ else none, fun _ => none⟩
        "c" 0 none).state.rateLimitMap "c" ≠
      (fun c => if c = "c" then some (⟨3, 0⟩ : RateLimitTracker) else none)
        "c" :=
  ⟨by decide, by decide, by decide⟩

/-- C2 amended: for every inbound frame that passes the rate limiter and
whose bytes do not parse, the actor replies to the sender only with an
`error` event carrying `"Invalid message format"`, broadcasts nothing, issues
no durable statement, and leaves the log and session registry unchanged; the
sender's rate-limit tracker, however, has already been charged by the
`checkRateLimit` call that runs before parsing. -/
theorem unparsable_frame_error_reply (st : ActorState) (connId : String)
    (now : Int) (exec : ExecOracle)
    (hrl : (checkRateLimit st.rateLimitMap connId now).1 = true) :
    onMessage exec st connId now none =
      ⟨⟨st.messages, (checkRateLimit st.rateLimitMap connId now).2,
          st.connectedUsers⟩,
        [.sendTo connId (.errorMsg "Invalid message format")], []⟩ :=
  onMessage_parse_fail hrl

/-- Witness for `unparsable_frame_error_reply` at a fresh connection. -/
theorem unparsable_frame_error_reply_witness :
    onMessage noFail ⟨[], fun _ => none, fun _ => none⟩ "c" 0 none =
      ⟨⟨[], (checkRateLimit (fun _ => none) "c" 0).2, fun _ => none⟩,
        [.sendTo "c" (.errorMsg "Invalid message format")], []⟩ :=
  unparsable_frame_error_reply ⟨[], fun _ => none, fun _ => none⟩ "c" 0
    noFail rfl

/-- The durable layer in which exactly the upsert of `m` raises with message
`e` (the eviction delete, if any, succeeds). -/
def failOnInsert (m : ChatMessage) (e : String) : ExecOracle :=
  fun op => if op = .insertMsg m then some e else none

lemma save_failOnInsert (msgs : List ChatMessage) (m : ChatMessage)
    (e : String) (hv : validateMessage m = none) :
    (saveMessage (failOnInsert m e) msgs m).result = .error e ∧
    m ∈ (saveMessage (failOnInsert m e) msgs m).messages := by
  unfold saveMessage
  rw [hv]
  cases hf : findIndex (fun x => x.id == m.id) msgs with
  | some i =>
    have hlt : i < msgs.length := findIndex_lt_length hf
    have hx : failOnInsert m e (.insertMsg m) = some e := by
      simp [failOnInsert]
    rw [hx]
    exact ⟨rfl, mem_set_self msgs i m hlt⟩
  | none =>
    cases msgs with
    | nil =>
      simp [failOnInsert, MAX_MESSAGES]
    | cons a as =>
      by_cases hl : MAX_MESSAGES < as.length + 1 + 1
      · simp only [List.cons_append, List.length_cons, List.length_append,
          List.length_nil, List.length_cons, hl, if_pos, List.head?_cons,
          List.drop_succ_cons, List.drop_zero]
        simp [failOnInsert]
      · simp only [List.cons_append, List.length_cons, List.length_append,
          List.length_nil]
        rw [if_neg (by simpa using hl)]
        simp [failOnInsert]

/-- C8: for every `add` frame that passes rate limiting and validation, if
the durable upsert raises, the sender alone receives an `error` event carrying
the raised message, nothing is broadcast, and the in-memory log already
contains the mutation (memory is mutated before the durable call), so memory
and durable storage disagree; `onMessage` is a total function, so the failure
never propagates out of the handler. -/
theorem durable_failure_no_broadcast (st : ActorState) (connId : String)
    (now : Int) (m : ChatMessage) (e : String)
    (hrl : (checkRateLimit st.rateLimitMap connId now).1 = true)
    (hv : validateMessage m = none) :
    (onMessage (failOnInsert m e) st connId now (some (.add m))).events =
      [.sendTo connId (.errorMsg e)] ∧
    m ∈ (onMessage (failOnInsert m e) st connId now
          (some (.add m))).state.messages := by
  have hs := save_failOnInsert st.messages m e hv
  rw [onMessage_add_error hrl hs.1]
  exact ⟨rfl, hs.2⟩

/-- Witness for `durable_failure_no_broadcast` at a fresh connection and the
empty log. -/
theorem durable_failure_no_broadcast_witness :
    (onMessage (failOnInsert (mkChat "a") "disk full")
        ⟨[], fun _ => none, fun _ => none⟩ "c" 0
        (some (.add (mkChat "a")))).events =
      [.sendTo "c" (.errorMsg "disk full")] ∧
    mkChat "a" ∈ (onMessage (failOnInsert (mkChat "a") "disk full")
        ⟨[], fun _ => none, fun _ => none⟩ "c" 0
        (some (.add (mkChat "a")))).state.messages :=
  durable_failure_no_broadcast ⟨[], fun _ => none, fun _ => none⟩ "c" 0
    (mkChat "a") "disk full" rfl (by decide)

/-- C10: a `delete` frame that passes the rate limiter is broadcast raw to
all connections with no exclusion (so the sender is included) and the sender
receives no error; exactly one durable delete is issued; when no entry has
the id, the in-memory log is unchanged and the durable delete leaves the
durable table unchanged; and deleting the same id twice leaves the same log
as deleting it once. -/
theorem delete_frame_semantics (st : ActorState) (connId mid : String)
    (now : Int)
    (hrl : (checkRateLimit st.rateLimitMap connId now).1 = true) :
    (onMessage noFail st connId now (some (.delete mid))).events =
      [.broadcastExcept [] .raw] ∧
    (onMessage noFail st connId now (some (.delete mid))).ops =
      [.deleteMsg mid] ∧
    ((∀ x ∈ st.messages, x.id ≠ mid) →
      (onMessage noFail st connId now (some (.delete mid))).state.messages =
        st.messages) ∧
    (∀ db : Db, db mid = none → applyOps db [.deleteMsg mid] = db) ∧
    (deleteMessage noFail
        (deleteMessage noFail st.messages mid).messages mid).messages =
      (deleteMessage noFail st.messages mid).messages := by
  rw [onMessage_delete_noFail hrl]
  refine ⟨rfl, rfl, ?_, ?_, ?_⟩
  · intro habs
    apply List.filter_eq_self.mpr
    intro x hx
    simp [habs x hx]
  · intro db hdb
    funext k
    simp only [applyOps, List.foldl_cons, List.foldl_nil, applySqlOp]
    by_cases hk : k = mid
    · rw [if_pos hk, hk, hdb]
    · rw [if_neg hk]
  · simp only [deleteMessage, noFail]
    rw [List.filter_filter]
    simp

/-- Witness for `delete_frame_semantics`: deleting an absent id from the
empty log at a fresh connection. -/
theorem delete_frame_semantics_witness :
    (onMessage noFail ⟨[], fun _ => none, fun _ => none⟩ "c" 0
        (some (.delete "x"))).events = [.broadcastExcept [] .raw] ∧
    (onMessage noFail ⟨[], fun _ => none, fun _ => none⟩ "c" 0
        (some (.delete "x"))).state.messages = ([] : List ChatMessage) ∧
    applyOps (fun _ => none) [.deleteMsg "x"] = (fun _ => none : Db) :=
  ⟨(delete_frame_semantics ⟨[], fun _ => none, fun _ => none⟩ "c" "x" 0
      rfl).1,
   (delete_frame_semantics ⟨[], fun _ => none, fun _ => none⟩ "c" "x" 0
      rfl).2.2.1 (fun x hx => absurd hx (List.not_mem_nil x)),
   (delete_frame_semantics ⟨[], fun _ => none, fun _ => none⟩ "c" "x" 0
      rfl).2.2.2.1 (fun _ => none) rfl⟩
